import Mathlib

/-!
Verification development for the LES (light Ethereum subprotocol) codec and
session logic of `evm/p2p/les.py`.

The generic RLP codec primitives (the `rlp` library) and the base
`Command`/`Protocol` machinery are external collaborators of this core; the
spec treats them as a given encode/decode library.  Messages are therefore
embedded at the level of RLP item trees (byte strings and nested lists): a
message-level encoder produces the item tree that the external byte codec
would serialize, and a message-level decoder consumes the item tree that the
external byte codec would parse.  Identical item trees yield identical wire
bytes under any deterministic byte codec.
-/

/-- An RLP item: either a byte string (each byte `< 256`, kept as `Nat`) or a
list of items.  This is the interface type between the subprotocol schemas of
`les.py` and the external byte-level codec. -/
inductive RLPItem where
  | bytes (bs : List Nat) : RLPItem
  | list (items : List RLPItem) : RLPItem

mutual

/-- Boolean equality on RLP items (structural). -/
def RLPItem.beq : RLPItem → RLPItem → Bool
  | .bytes a, .bytes b => a == b
  | .list a, .list b => RLPItem.beqList a b
  | _, _ => false

/-- Boolean equality on lists of RLP items. -/
def RLPItem.beqList : List RLPItem → List RLPItem → Bool
  | [], [] => true
  | a :: as, b :: bs => RLPItem.beq a b && RLPItem.beqList as bs
  | _, _ => false

end

mutual

theorem RLPItem.beq_iff : ∀ (a b : RLPItem), RLPItem.beq a b = true ↔ a = b
  | .bytes a, .bytes b => by simp [RLPItem.beq]
  | .bytes a, .list b => by simp [RLPItem.beq]
  | .list a, .bytes b => by simp [RLPItem.beq]
  | .list a, .list b => by
      rw [RLPItem.beq, RLPItem.beqList_iff a b]
      simp

theorem RLPItem.beqList_iff : ∀ (as bs : List RLPItem), RLPItem.beqList as bs = true ↔ as = bs
  | [], [] => by simp [RLPItem.beqList]
  | [], _ :: _ => by simp [RLPItem.beqList]
  | _ :: _, [] => by simp [RLPItem.beqList]
  | a :: as, b :: bs => by
      rw [RLPItem.beqList, Bool.and_eq_true, RLPItem.beq_iff a b, RLPItem.beqList_iff as bs]
      simp

end

instance : DecidableEq RLPItem := fun a b =>
  decidable_of_iff (RLPItem.beq a b = true) (RLPItem.beq_iff a b)

instance {ε α : Type} [DecidableEq ε] [DecidableEq α] : DecidableEq (Except ε α) := fun a b =>
  match a, b with
  | .ok x, .ok y => if h : x = y then isTrue (by rw [h]) else isFalse (by simp [h])
  | .error x, .error y => if h : x = y then isTrue (by rw [h]) else isFalse (by simp [h])
  | .ok _, .error _ => isFalse (by simp)
  | .error _, .ok _ => isFalse (by simp)

/-- Big-endian minimal-length serialization of an unsigned integer, as done by
the external codec's `big_endian_int` sedes: `0` encodes as the empty byte
string, and the leading byte of a nonzero value is never `0`.  The `fuel`
argument makes the recursion structural (the value divided by 256 strictly
decreases, so `fuel = n` always suffices for `n`). -/
def beBytesAux : Nat → Nat → List Nat
  | _, 0 => []
  | 0, _ + 1 => []
  | fuel + 1, n + 1 => beBytesAux fuel ((n + 1) / 256) ++ [(n + 1) % 256]

/-- Minimal big-endian bytes of `n` (the `big_endian_int.serialize` of the
external codec). -/
def beBytes (n : Nat) : List Nat := beBytesAux n n

/-- Big-endian interpretation of a byte string as an unsigned integer. -/
def fromBE (bs : List Nat) : Nat := bs.foldl (fun acc b => 256 * acc + b) 0

/-- The `big_endian_int.deserialize` of the external codec: the item must be a
byte string in minimal form (no leading zero byte); otherwise deserialization
fails. -/
def deserializeInt : RLPItem → Option Nat
  | .bytes [] => some 0
  | .bytes (b :: bs) => if b = 0 then none else some (fromBE (b :: bs))
  | .list _ => none

/-- The `binary.deserialize` of the external codec: any byte string, never a
list. -/
def deserializeBinary : RLPItem → Option (List Nat)
  | .bytes bs => some bs
  | .list _ => none

/-- The sedes (codec) kinds that occur as values of `Status.items_sedes` in
`les.py`: `sedes.big_endian_int`, `sedes.binary`, and the flow-control cost
table codec `sedes.CountableList(sedes.List([big_endian_int, big_endian_int,
big_endian_int]))`. -/
inductive ItemSedes where
  | big_endian_int : ItemSedes
  | binary : ItemSedes
  | mrc_list : ItemSedes
deriving DecidableEq, Repr

/-- A decoded value of a Status key: `big_endian_int` yields an unsigned
integer, `binary` yields a byte string, a key with no sedes (`None` in
`items_sedes`) keeps its raw RLP item, and the flow-control cost table yields
a list of integer triples. -/
inductive StatusValue where
  | int (n : Nat) : StatusValue
  | bytes (bs : List Nat) : StatusValue
  | raw (r : RLPItem) : StatusValue
  | triples (l : List (Nat × Nat × Nat)) : StatusValue
deriving DecidableEq

/-- Serialization of a native value by an item sedes (the `serialize` call in
`Status.encode_payload`); `none` models the `SerializationError` the external
codec raises when the value's type does not fit the sedes. -/
def serializeValue : ItemSedes → StatusValue → Option RLPItem
  | .big_endian_int, .int n => some (.bytes (beBytes n))
  | .binary, .bytes bs => some (.bytes bs)
  | .mrc_list, .triples l =>
      some (.list (l.map fun t =>
        .list [.bytes (beBytes t.1), .bytes (beBytes t.2.1), .bytes (beBytes t.2.2)]))
  | _, _ => none

/-- Deserialization of one cost-table triple: a strict three-element list of
big-endian integers. -/
def deserializeTriple : RLPItem → Option (Nat × Nat × Nat)
  | .list [a, b, c] =>
      match deserializeInt a, deserializeInt b, deserializeInt c with
      | some x, some y, some z => some (x, y, z)
      | _, _, _ => none
  | _ => none

/-- Elementwise decoding of a list, failing if any element fails (the
behavior of a `CountableList` sedes). -/
def optMap {α β : Type} (f : α → Option β) : List α → Option (List β)
  | [] => some []
  | a :: as =>
      match f a, optMap f as with
      | some b, some bs => some (b :: bs)
      | _, _ => none

/-- Deserialization of the flow-control cost table (`CountableList` of
triples). -/
def deserializeMRC : RLPItem → Option (List (Nat × Nat × Nat))
  | .bytes _ => none
  | .list items => optMap deserializeTriple items

/-- Deserialization of a known key's value by its sedes (the
`item_sedes.deserialize(value)` call in `Status.decode_payload`). -/
def deserializeValue : ItemSedes → RLPItem → Option StatusValue
  | .big_endian_int, r => (deserializeInt r).map .int
  | .binary, r => (deserializeBinary r).map .bytes
  | .mrc_list, r => (deserializeMRC r).map .triples

/-- Association-list lookup with string keys; models Python dict lookup
(`d[k]` / `k in d`) on the dictionaries of `les.py`. -/
def alistFind {α : Type} : List (String × α) → String → Option α
  | [], _ => none
  | (k', v) :: rest, k => if k' = k then some v else alistFind rest k

/-- The known-key table `Status.items_sedes` of `les.py`, in source order.
A `none` entry is a key whose sedes is `None` (presence-only flag). -/
def items_sedes : List (String × Option ItemSedes) :=
  [("protocolVersion", some .big_endian_int),
   ("networkId", some .big_endian_int),
   ("headTd", some .big_endian_int),
   ("headHash", some .binary),
   ("headNum", some .big_endian_int),
   ("genesisHash", some .binary),
   ("serveHeaders", none),
   ("serveChainSince", some .big_endian_int),
   ("serveStateSince", some .big_endian_int),
   ("txRelay", none),
   ("flowControl/BL", some .big_endian_int),
   ("flowControl/MRC", some .mrc_list),
   ("flowControl/MRR", some .big_endian_int)]

/-- Lookup in the known-key table: `none` means the key is absent from
`items_sedes` (unknown key); `some none` means the key is known but has no
sedes; `some (some s)` means the key is known with sedes `s`. -/
def lookupItemSedes (k : String) : Option (Option ItemSedes) :=
  alistFind items_sedes k

/-- The ASCII encoding of a key string, as the wire form carries it. -/
def str2bytes (s : String) : List Nat := s.data.map Char.toNat

/-- Python's `bytes.decode('ascii')`: succeeds exactly when every byte is
below 128, yielding the corresponding string. -/
def asciiDecode (bs : List Nat) : Option String :=
  if bs.all (fun b => b < 128) then some (String.mk (bs.map fun b => Char.ofNat b))
  else none

/-- Python dict insertion: if the key is present its value is replaced in
place, otherwise the pair is appended. -/
def dinsert : List (String × StatusValue) → String → StatusValue → List (String × StatusValue)
  | [], k, v => [(k, v)]
  | (k', v') :: rest, k, v =>
      if k' = k then (k', v) :: rest else (k', v') :: dinsert rest k v

/-- Accumulate a generator's (key, value) yields into a dict, as the
`@to_dict` decorator on `Status.decode_payload` does. -/
def toDict (es : List (String × StatusValue)) : List (String × StatusValue) :=
  es.foldl (fun d kv => dinsert d kv.1 kv.2) []

/-- Errors of the typed (phase 2) Status decode: a key whose bytes are not
ASCII-decodable (Python `UnicodeDecodeError`), or a known key whose value
fails its sedes (the external codec's `DeserializationError`; the spec calls
it `FieldDecodeError`). -/
inductive StatusDecodeError where
  | nonAscii (keyBytes : List Nat) : StatusDecodeError
  | fieldDecode (key : String) : StatusDecodeError
deriving DecidableEq, Repr

/-- Interpretation of a known key's raw value: a key with a sedes applies it;
a key with sedes `None` keeps the raw value (the `else` branch of
`Status.decode_payload`). -/
def decodeKnownValue : Option ItemSedes → RLPItem → Option StatusValue
  | none, r => some (.raw r)
  | some s, r => deserializeValue s r

/-- The per-pair loop of `Status.decode_payload`: ASCII-decode the key bytes,
skip keys absent from `items_sedes`, and deserialize known keys' values,
yielding the (key, value) pairs in payload order. -/
def decodeStatusEntries :
    List (List Nat × RLPItem) → Except StatusDecodeError (List (String × StatusValue))
  | [] => .ok []
  | (kb, v) :: rest =>
      match asciiDecode kb with
      | none => .error (.nonAscii kb)
      | some k =>
          match lookupItemSedes k with
          | none => decodeStatusEntries rest
          | some os =>
              match decodeKnownValue os v with
              | none => .error (.fieldDecode k)
              | some sv =>
                  match decodeStatusEntries rest with
                  | .error e => .error e
                  | .ok es => .ok ((k, sv) :: es)

/-- `Status.decode_payload` (phase 2): the payload is the outer list of
(key bytes, raw value) pairs produced by phase 1; the result is the
accumulated dict. -/
def Status.decode_payload (payload : List (List Nat × RLPItem)) :
    Except StatusDecodeError (List (String × StatusValue)) :=
  match decodeStatusEntries payload with
  | .error e => .error e
  | .ok es => .ok (toDict es)

/-- Errors of `Status.encode_payload`: a key absent from `items_sedes`
(Python `KeyError`; the spec calls it `UnknownKeyError`), a known key whose
sedes is `None` (Python `AttributeError` on `None.serialize`), or a value the
key's sedes cannot serialize (the external codec's `SerializationError`). -/
inductive StatusEncodeError where
  | unknownKey (key : String) : StatusEncodeError
  | noCodec (key : String) : StatusEncodeError
  | serialization (key : String) : StatusEncodeError
deriving DecidableEq, Repr

/-- Encoding of one (key, value) pair of `Status.encode_payload`:
`self.items_sedes[key].serialize(value)`, paired with the key's wire bytes as
the outer `List([binary, raw])` structure lays them out. -/
def encodeEntry (kv : String × StatusValue) : Except StatusEncodeError RLPItem :=
  match lookupItemSedes kv.1 with
  | none => .error (.unknownKey kv.1)
  | some none => .error (.noCodec kv.1)
  | some (some s) =>
      match serializeValue s kv.2 with
      | none => .error (.serialization kv.1)
      | some item => .ok (.list [.bytes (str2bytes kv.1), item])

/-- The list comprehension of `Status.encode_payload`, stopping at the first
failing entry as Python does. -/
def mapEncodeEntries :
    List (String × StatusValue) → Except StatusEncodeError (List RLPItem)
  | [] => .ok []
  | p :: rest =>
      match encodeEntry p with
      | .error e => .error e
      | .ok i =>
          match mapEncodeEntries rest with
          | .error e => .error e
          | .ok is => .ok (i :: is)

/-- Lexicographic comparison of character lists by code point, which is how
Python compares `str` values. -/
def charListLE : List Char → List Char → Bool
  | [], _ => true
  | _ :: _, [] => false
  | a :: as, b :: bs =>
      if a.toNat < b.toNat then true
      else if b.toNat < a.toNat then false
      else charListLE as bs

/-- Ordering of dict items by key, as Python's `sorted(data.items())` orders
them (keys are distinct in a dict, so the comparison never reaches the
values). -/
def keyLE (a b : String × StatusValue) : Prop := charListLE a.1.data b.1.data = true

instance : DecidableRel keyLE := fun a b =>
  inferInstanceAs (Decidable (charListLE a.1.data b.1.data = true))

/-- The strict-by-key order used to show two sorted dicts with the same keys
coincide. -/
def keyStrict (a b : String × StatusValue) : Prop := (keyLE a b ∧ a.1 ≠ b.1) ∨ a = b

/-- `Status.encode_payload`: serialize each known key's value, in sorted key
order, and hand the outer list to the external byte codec. -/
def Status.encode_payload (data : List (String × StatusValue)) :
    Except StatusEncodeError RLPItem :=
  match mapEncodeEntries (List.insertionSort keyLE data) with
  | .error e => .error e
  | .ok items => .ok (.list items)

/-- The frames a send operation hands to the transport: none when encoding
fails (the error is raised before `self.send` runs), exactly the encoded
frame otherwise. -/
def handedToTransport (r : Except StatusEncodeError RLPItem) : List RLPItem :=
  match r with
  | .error _ => []
  | .ok i => [i]

/-- Modelled from the spec: `Command.decode_payload` (phase 1) for
`Status.structure = CountableList(List([binary, raw]))` — the base `Command`
class lives in `evm/p2p/protocol.py`, which is outside this repository
snapshot.  Each element must be a strict two-element list whose first item is
a byte string; the second is kept raw. -/
def decodeOuterPair : RLPItem → Option (List Nat × RLPItem)
  | .list [.bytes kb, v] => some (kb, v)
  | _ => none

/-- Phase-1 decoding of the outer list elements. -/
def phase1Items (items : List RLPItem) : Option (List (List Nat × RLPItem)) :=
  optMap decodeOuterPair items

/-- Modelled from the spec: the phase-1 decode of a Status wire item — the
outer shape must be a list of (byte-string key, raw value) pairs. -/
def statusOuterDecode : RLPItem → Option (List (List Nat × RLPItem))
  | .bytes _ => none
  | .list items => phase1Items items

/-- The raw value of the last pair of `payload` whose key bytes ASCII-decode
to `k` (later pairs overwrite earlier ones in the accumulated dict). -/
def lastRaw : List (List Nat × RLPItem) → String → Option RLPItem
  | [], _ => none
  | (kb, v) :: rest, k =>
      match lastRaw rest k with
      | some w => some w
      | none => if asciiDecode kb = some k then some v else none

/-- The value of the last entry of `es` with key `k`. -/
def lastVal : List (String × StatusValue) → String → Option StatusValue
  | [], _ => none
  | (k', v) :: rest, k =>
      match lastVal rest k with
      | some w => some w
      | none => if k' = k then some v else none

/-- The head summary of `les.py`'s `HeadInfo` class.  Python stores the
decoded values without further typing, so the fields hold `StatusValue`s. -/
structure HeadInfo where
  block_number : StatusValue
  block_hash : StatusValue
  total_difficulty : StatusValue
  reorg_depth : StatusValue
deriving DecidableEq

/-- `Status.as_head_info`: reads `headNum`, `headHash`, `headTd` from the
decoded Status dict and fixes `reorg_depth = 0`; `none` models the `KeyError`
Python raises when one of the three keys is missing. -/
def Status.as_head_info (decoded : List (String × StatusValue)) : Option HeadInfo :=
  match alistFind decoded "headNum", alistFind decoded "headHash",
      alistFind decoded "headTd" with
  | some n, some h, some t => some ⟨n, h, t, .int 0⟩
  | _, _, _ => none

/-- A decoded Announce message, per `Announce.structure` in `les.py`:
`head_hash` is `binary`, the three numbers are `big_endian_int`, and `params`
is a `CountableList(List([binary, raw]))` kept uninterpreted. -/
structure AnnounceMsg where
  head_hash : List Nat
  head_number : Nat
  head_td : Nat
  reorg_depth : Nat
  params : List (List Nat × RLPItem)
deriving DecidableEq

/-- `Announce.as_head_info`: all four summary fields are taken directly from
the decoded message. -/
def Announce.as_head_info (m : AnnounceMsg) : HeadInfo :=
  ⟨.int m.head_number, .bytes m.head_hash, .int m.head_td, .int m.reorg_depth⟩

/-- Wire layout of one (key, value) pair inside a `CountableList(List([binary,
raw]))` field. -/
def pairItem (p : List Nat × RLPItem) : RLPItem := .list [.bytes p.1, p.2]

/-- Serialization of an Announce message by its ordered field list. -/
def Announce.serialize (m : AnnounceMsg) : RLPItem :=
  .list [.bytes m.head_hash, .bytes (beBytes m.head_number), .bytes (beBytes m.head_td),
         .bytes (beBytes m.reorg_depth), .list (m.params.map pairItem)]

/-- Deserialization of an Announce message: strict five-field shape, typed
fields, params kept raw. -/
def Announce.deserialize : RLPItem → Option AnnounceMsg
  | .list [.bytes hh, hn, ht, rd, .list ps] =>
      match deserializeInt hn, deserializeInt ht, deserializeInt rd, phase1Items ps with
      | some n, some t, some d, some params => some ⟨hh, n, t, d, params⟩
      | _, _, _, _ => none
  | _ => none

/-- The `GetBlockHeadersQuery` record of `les.py`: four `big_endian_int`
fields (`reverse` is a bool carried as an integer on the wire). -/
structure GetBlockHeadersQuery where
  block : Nat
  max_headers : Nat
  skip : Nat
  reverse : Nat
deriving DecidableEq

/-- Serialization of a headers query (strict four-field record). -/
def GetBlockHeadersQuery.serialize (q : GetBlockHeadersQuery) : RLPItem :=
  .list [.bytes (beBytes q.block), .bytes (beBytes q.max_headers),
         .bytes (beBytes q.skip), .bytes (beBytes q.reverse)]

/-- Deserialization of a headers query. -/
def GetBlockHeadersQuery.deserialize : RLPItem → Option GetBlockHeadersQuery
  | .list [b, m, s, r] =>
      match deserializeInt b, deserializeInt m, deserializeInt s, deserializeInt r with
      | some b', some m', some s', some r' => some ⟨b', m', s', r'⟩
      | _, _, _, _ => none
  | _ => none

/-- A GetBlockHeaders request message: a request id and a nested query. -/
structure GetBlockHeadersMsg where
  request_id : Nat
  query : GetBlockHeadersQuery
deriving DecidableEq

/-- Serialization of a GetBlockHeaders message. -/
def GetBlockHeadersMsg.serialize (m : GetBlockHeadersMsg) : RLPItem :=
  .list [.bytes (beBytes m.request_id), m.query.serialize]

/-- Deserialization of a GetBlockHeaders message. -/
def GetBlockHeadersMsg.deserialize : RLPItem → Option GetBlockHeadersMsg
  | .list [r, q] =>
      match deserializeInt r, GetBlockHeadersQuery.deserialize q with
      | some rid, some q' => some ⟨rid, q'⟩
      | _, _ => none
  | _ => none

/-- A BlockHeaders response.  Modelled from the spec: the `BlockHeader`
records inside it live in `evm/rlp/headers.py`, outside this snapshot, and
are opaque to this core beyond being a known compound type; they are kept as
raw item trees, their codec being the given external collaborator. -/
structure BlockHeadersMsg where
  request_id : Nat
  buffer_value : Nat
  headers : List RLPItem
deriving DecidableEq

/-- Serialization of a BlockHeaders message. -/
def BlockHeadersMsg.serialize (m : BlockHeadersMsg) : RLPItem :=
  .list [.bytes (beBytes m.request_id), .bytes (beBytes m.buffer_value), .list m.headers]

/-- Deserialization of a BlockHeaders message. -/
def BlockHeadersMsg.deserialize : RLPItem → Option BlockHeadersMsg
  | .list [r, b, .list hs] =>
      match deserializeInt r, deserializeInt b with
      | some rid, some bv => some ⟨rid, bv, hs⟩
      | _, _ => none
  | _ => none

/-- A GetBlockBodies request: a request id and a `CountableList(binary)` of
block hashes. -/
structure GetBlockBodiesMsg where
  request_id : Nat
  block_hashes : List (List Nat)
deriving DecidableEq

/-- Serialization of a GetBlockBodies message. -/
def GetBlockBodiesMsg.serialize (m : GetBlockBodiesMsg) : RLPItem :=
  .list [.bytes (beBytes m.request_id), .list (m.block_hashes.map .bytes)]

/-- Deserialization of a GetBlockBodies message. -/
def GetBlockBodiesMsg.deserialize : RLPItem → Option GetBlockBodiesMsg
  | .list [r, .list hs] =>
      match deserializeInt r, optMap deserializeBinary hs with
      | some rid, some hashes => some ⟨rid, hashes⟩
      | _, _ => none
  | _ => none

/-- A `LESBlockBody` record.  Modelled from the spec: transactions and uncle
headers are compound records from `evm/rlp`, outside this snapshot, opaque to
this core; they are kept as raw item trees. -/
structure LESBlockBody where
  transactions : List RLPItem
  uncles : List RLPItem
deriving DecidableEq

/-- Serialization of a block body record. -/
def LESBlockBody.serialize (b : LESBlockBody) : RLPItem :=
  .list [.list b.transactions, .list b.uncles]

/-- Deserialization of a block body record. -/
def LESBlockBody.deserialize : RLPItem → Option LESBlockBody
  | .list [.list ts, .list us] => some ⟨ts, us⟩
  | _ => none

/-- A BlockBodies response. -/
structure BlockBodiesMsg where
  request_id : Nat
  buffer_value : Nat
  bodies : List LESBlockBody
deriving DecidableEq

/-- Serialization of a BlockBodies message. -/
def BlockBodiesMsg.serialize (m : BlockBodiesMsg) : RLPItem :=
  .list [.bytes (beBytes m.request_id), .bytes (beBytes m.buffer_value),
         .list (m.bodies.map LESBlockBody.serialize)]

/-- Deserialization of a BlockBodies message. -/
def BlockBodiesMsg.deserialize : RLPItem → Option BlockBodiesMsg
  | .list [r, b, .list bs] =>
      match deserializeInt r, deserializeInt b, optMap LESBlockBody.deserialize bs with
      | some rid, some bv, some bodies => some ⟨rid, bv, bodies⟩
      | _, _, _ => none
  | _ => none

/-- Modelled from the spec: the disconnect reason code relayed to the
transport (`evm/p2p/p2p_proto.py` is outside this snapshot); `les.py` always
passes `DisconnectReason.other` on handshake failure. -/
inductive DisconnectReason where
  | other : DisconnectReason
deriving DecidableEq

/-- Modelled from the spec: which handshake validation failed.  The spec
names the two failure modes `NetworkMismatch` and `GenesisMismatch`; in
`les.py` they are the two distinct `raise HandshakeFailure(...)` sites of
`process_handshake`. -/
inductive HandshakeReason where
  | networkMismatch : HandshakeReason
  | genesisMismatch : HandshakeReason
deriving DecidableEq

/-- Modelled from the spec: the `HandshakeFailure` exception
(`evm/p2p/exceptions.py` is outside this snapshot), carrying which validation
failed and the disconnect reason code handed to the transport. -/
structure HandshakeFailure where
  reason : HandshakeReason
  disconnect_reason : DisconnectReason
deriving DecidableEq

/-- Failure modes of `process_handshake`: a missing required key (Python
`KeyError`) or a `HandshakeFailure`. -/
inductive ProcessHandshakeError where
  | keyError (key : String) : ProcessHandshakeError
  | handshakeFailure (f : HandshakeFailure) : ProcessHandshakeError
deriving DecidableEq

/-- `LESProtocol.process_handshake`: validate the remote's `networkId`
against the local network id, then its `genesisHash` against the local
genesis hash, raising `HandshakeFailure(DisconnectReason.other)` on the first
mismatch.  Python's `!=` compares dynamic values, so an equality of
`StatusValue`s models it. -/
def LESProtocol.process_handshake (decoded_msg : List (String × StatusValue))
    (network_id : Nat) (genesis_hash : List Nat) : Except ProcessHandshakeError Unit :=
  match alistFind decoded_msg "networkId" with
  | none => .error (.keyError "networkId")
  | some nid =>
      if nid ≠ StatusValue.int network_id then
        .error (.handshakeFailure ⟨.networkMismatch, .other⟩)
      else
        match alistFind decoded_msg "genesisHash" with
        | none => .error (.keyError "genesisHash")
        | some gh =>
            if gh ≠ StatusValue.bytes genesis_hash then
              .error (.handshakeFailure ⟨.genesisMismatch, .other⟩)
            else .ok ()

/-- The failure of the request builders: the `ValueError("Cannot ask for more
than ...")` of `les.py`, which the spec calls `LimitExceeded`. -/
inductive FetchError where
  | limitExceeded : FetchError
deriving DecidableEq

/-- `LESProtocol.send_get_block_headers`: reject requests above the
configured limit, otherwise build the GetBlockHeaders message handed to the
transport.  `MAX_HEADERS_FETCH` comes from `evm/p2p/constants.py`, outside
this snapshot, so it is a parameter here and the theorems hold for every
configured value; `skip` is fixed to 0 by the code (there is no skip
argument). -/
def LESProtocol.send_get_block_headers (MAX_HEADERS_FETCH : Nat)
    (block_number max_headers request_id : Nat) (reverse : Bool) :
    Except FetchError GetBlockHeadersMsg :=
  if max_headers > MAX_HEADERS_FETCH then .error .limitExceeded
  else .ok ⟨request_id, ⟨block_number, max_headers, 0, if reverse then 1 else 0⟩⟩

/-- `LESProtocol.send_get_block_bodies`: reject requests for more than the
configured number of bodies, otherwise build the GetBlockBodies message
handed to the transport.  `MAX_BODIES_FETCH` is a parameter for the same
reason as above. -/
def LESProtocol.send_get_block_bodies (MAX_BODIES_FETCH : Nat)
    (block_hashes : List (List Nat)) (request_id : Nat) :
    Except FetchError GetBlockBodiesMsg :=
  if block_hashes.length > MAX_BODIES_FETCH then .error .limitExceeded
  else .ok ⟨request_id, block_hashes⟩



/-! ### Basic codec lemmas -/

theorem fromBE_append (xs : List Nat) (b : Nat) :
    fromBE (xs ++ [b]) = 256 * fromBE xs + b := by
  simp [fromBE, List.foldl_append]

theorem beBytesAux_spec :
    ∀ (f n : Nat), n ≤ f → n ≠ 0 →
      ∃ h t, beBytesAux f n = h :: t ∧ h ≠ 0 ∧ fromBE (h :: t) = n := by
  intro f
  induction f with
  | zero =>
      intro n hle hne
      omega
  | succ f ih =>
      intro n hle hne
      obtain ⟨m, rfl⟩ : ∃ m, n = m + 1 := ⟨n - 1, by omega⟩
      rw [show beBytesAux (f + 1) (m + 1) =
            beBytesAux f ((m + 1) / 256) ++ [(m + 1) % 256] from rfl]
      by_cases hq : (m + 1) / 256 = 0
      · have hlt : m + 1 < 256 := by omega
        have hmod : (m + 1) % 256 = m + 1 := Nat.mod_eq_of_lt hlt
        have hnil : beBytesAux f ((m + 1) / 256) = [] := by
          rw [hq]
          cases f <;> rfl
        refine ⟨m + 1, [], ?_, by omega, ?_⟩
        · rw [hnil, hmod]
          rfl
        · simp [fromBE]
      · have hqle : (m + 1) / 256 ≤ f := by
          have := Nat.div_lt_self (Nat.succ_pos m) (by norm_num : 1 < 256)
          omega
        obtain ⟨h, t, heq, hne0, hval⟩ := ih ((m + 1) / 256) hqle hq
        refine ⟨h, t ++ [(m + 1) % 256], ?_, hne0, ?_⟩
        · rw [heq]
          rfl
        · have : fromBE ((h :: t) ++ [(m + 1) % 256]) = 256 * fromBE (h :: t) + (m + 1) % 256 :=
            fromBE_append _ _
          simp only [List.cons_append] at this
          rw [this, hval, Nat.div_add_mod]

theorem fromBE_beBytes (n : Nat) : fromBE (beBytes n) = n := by
  by_cases h : n = 0
  · subst h
    rfl
  · obtain ⟨hd, t, heq, _, hval⟩ := beBytesAux_spec n n le_rfl h
    rw [beBytes, heq, hval]

theorem deserializeInt_beBytes (n : Nat) : deserializeInt (.bytes (beBytes n)) = some n := by
  by_cases h : n = 0
  · subst h
    rfl
  · obtain ⟨hd, t, heq, hne, hval⟩ := beBytesAux_spec n n le_rfl h
    rw [beBytes, heq]
    simp [deserializeInt, hne, hval]

theorem alistFind_mem {α : Type} :
    ∀ (l : List (String × α)) (k : String) (v : α), alistFind l k = some v → (k, v) ∈ l := by
  intro l
  induction l with
  | nil => intro k v h; simp [alistFind] at h
  | cons p rest ih =>
      intro k v h
      obtain ⟨k', v'⟩ := p
      rw [alistFind] at h
      split at h
      · rename_i hk
        injection h with hv
        subst hk hv
        exact List.mem_cons_self _ _
      · exact List.mem_cons_of_mem _ (ih k v h)

theorem knownKey_ascii (k : String) (os : Option ItemSedes)
    (h : lookupItemSedes k = some os) : asciiDecode (str2bytes k) = some k := by
  have hm := alistFind_mem _ _ _ h
  simp only [items_sedes, List.mem_cons, List.not_mem_nil, or_false, Prod.mk.injEq] at hm
  rcases hm with ⟨rfl, -⟩ | ⟨rfl, -⟩ | ⟨rfl, -⟩ | ⟨rfl, -⟩ | ⟨rfl, -⟩ | ⟨rfl, -⟩ | ⟨rfl, -⟩ |
    ⟨rfl, -⟩ | ⟨rfl, -⟩ | ⟨rfl, -⟩ | ⟨rfl, -⟩ | ⟨rfl, -⟩ | ⟨rfl, -⟩ <;> decide

theorem optMap_map_roundtrip {α β : Type} (f : α → β) (g : β → Option α)
    (hfg : ∀ a, g (f a) = some a) : ∀ l : List α, optMap g (l.map f) = some l := by
  intro l
  induction l with
  | nil => rfl
  | cons a as ih => simp [optMap, hfg a, ih]

theorem deserializeTriple_roundtrip (t : Nat × Nat × Nat) :
    deserializeTriple
      (.list [.bytes (beBytes t.1), .bytes (beBytes t.2.1), .bytes (beBytes t.2.2)]) = some t := by
  simp [deserializeTriple, deserializeInt_beBytes]

theorem deserializeValue_serializeValue (s : ItemSedes) (v : StatusValue) (item : RLPItem)
    (h : serializeValue s v = some item) : deserializeValue s item = some v := by
  cases s <;> cases v <;> simp [serializeValue] at h <;> subst h
  · simp [deserializeValue, deserializeInt_beBytes]
  · simp [deserializeValue, deserializeBinary]
  · simp only [deserializeValue, deserializeMRC]
    rw [optMap_map_roundtrip _ _ deserializeTriple_roundtrip]
    rfl

/-! ### C1: handshake validation order -/

/-- C1: `process_handshake` validates the remote Status message in order —
a `networkId` value different from the local network id fails with
`HandshakeFailure` for a network mismatch; a matching `networkId` but a
`genesisHash` different from the local genesis hash fails with
`HandshakeFailure` for a genesis mismatch; and when both match the handshake
returns without error. -/
theorem process_handshake_validates_in_order
    (d : List (String × StatusValue)) (net : Nat) (gen : List Nat) :
    (∀ nid, alistFind d "networkId" = some nid → nid ≠ .int net →
      LESProtocol.process_handshake d net gen =
        .error (.handshakeFailure ⟨.networkMismatch, .other⟩)) ∧
    (∀ gh, alistFind d "networkId" = some (.int net) →
      alistFind d "genesisHash" = some gh → gh ≠ .bytes gen →
      LESProtocol.process_handshake d net gen =
        .error (.handshakeFailure ⟨.genesisMismatch, .other⟩)) ∧
    (alistFind d "networkId" = some (.int net) →
      alistFind d "genesisHash" = some (.bytes gen) →
      LESProtocol.process_handshake d net gen = .ok ()) := by
  refine ⟨?_, ?_, ?_⟩
  · intro nid h1 h2
    simp [LESProtocol.process_handshake, h1, h2]
  · intro gh h1 h2 h3
    simp [LESProtocol.process_handshake, h1, h2, h3]
  · intro h1 h2
    simp [LESProtocol.process_handshake, h1, h2]

/-- Witness for C1 at concrete inputs: local network id 1, local genesis
hash byte `170`. -/
theorem process_handshake_validates_in_order_witness :
    LESProtocol.process_handshake
        [("networkId", .int 2), ("genesisHash", .bytes [170])] 1 [170] =
      .error (.handshakeFailure ⟨.networkMismatch, .other⟩) ∧
    LESProtocol.process_handshake
        [("networkId", .int 1), ("genesisHash", .bytes [187])] 1 [170] =
      .error (.handshakeFailure ⟨.genesisMismatch, .other⟩) ∧
    LESProtocol.process_handshake
        [("networkId", .int 1), ("genesisHash", .bytes [170])] 1 [170] = .ok () :=
  ⟨(process_handshake_validates_in_order _ 1 [170]).1 (.int 2) (by decide) (by decide),
   (process_handshake_validates_in_order _ 1 [170]).2.1 (.bytes [187]) (by decide) (by decide)
     (by decide),
   (process_handshake_validates_in_order _ 1 [170]).2.2 (by decide) (by decide)⟩

/-! ### C2: request size limits -/

/-- C2: `send_get_block_headers` fails with the limit error exactly when
`max_headers` exceeds the configured maximum, and otherwise builds a request
carrying the given request id, the given start block, `max_headers` equal to
the requested count, `skip = 0` (the code has no skip argument), and the
given direction; `send_get_block_bodies` fails exactly when the number of
block hashes exceeds the bodies maximum, and otherwise builds a request with
the given request id and block hashes. -/
theorem request_limits_exact (LH LB bn mh rid rid2 : Nat) (rev : Bool)
    (hashes : List (List Nat)) :
    (LESProtocol.send_get_block_headers LH bn mh rid rev = .error .limitExceeded ↔ mh > LH) ∧
    (mh ≤ LH → LESProtocol.send_get_block_headers LH bn mh rid rev =
      .ok ⟨rid, ⟨bn, mh, 0, if rev then 1 else 0⟩⟩) ∧
    (LESProtocol.send_get_block_bodies LB hashes rid2 = .error .limitExceeded ↔
      hashes.length > LB) ∧
    (hashes.length ≤ LB →
      LESProtocol.send_get_block_bodies LB hashes rid2 = .ok ⟨rid2, hashes⟩) := by
  refine ⟨?_, ?_, ?_, ?_⟩
  · by_cases h : mh > LH <;> simp [LESProtocol.send_get_block_headers, h]
  · intro h
    simp [LESProtocol.send_get_block_headers, Nat.not_lt.mpr h]
  · by_cases h : hashes.length > LB <;> simp [LESProtocol.send_get_block_bodies, h]
  · intro h
    simp [LESProtocol.send_get_block_bodies, Nat.not_lt.mpr h]

/-- Witness for C2 with limit 192 for headers and 2 for bodies: a request of
exactly the limit succeeds with the stated fields, one past the limit fails. -/
theorem request_limits_exact_witness :
    LESProtocol.send_get_block_headers 192 100 192 7 true = .ok ⟨7, ⟨100, 192, 0, 1⟩⟩ ∧
    LESProtocol.send_get_block_headers 192 100 193 7 true = .error .limitExceeded ∧
    LESProtocol.send_get_block_bodies 2 [[1], [2]] 9 = .ok ⟨9, [[1], [2]]⟩ ∧
    LESProtocol.send_get_block_bodies 2 [[1], [2], [3]] 9 = .error .limitExceeded :=
  ⟨(request_limits_exact 192 2 100 192 7 9 true [[1], [2]]).2.1 (by decide),
   (request_limits_exact 192 2 100 193 7 9 true [[1], [2]]).1.mpr (by decide),
   (request_limits_exact 192 2 100 192 7 9 true [[1], [2]]).2.2.2 (by decide),
   (request_limits_exact 192 2 100 192 7 9 true [[1], [2], [3]]).2.2.1.mpr (by decide)⟩

/-! ### C5: head summary extraction -/

/-- C5: `Status.as_head_info` on a decoded Status message carrying the three
head keys returns the summary built from `headNum`, `headHash`, `headTd`
with `reorg_depth = 0`; `Announce.as_head_info` returns all four fields
directly and unchanged from the message. -/
theorem as_head_info_fields :
    (∀ (d : List (String × StatusValue)) n h t,
      alistFind d "headNum" = some n → alistFind d "headHash" = some h →
      alistFind d "headTd" = some t →
      Status.as_head_info d = some ⟨n, h, t, .int 0⟩) ∧
    (∀ m : AnnounceMsg, Announce.as_head_info m =
      ⟨.int m.head_number, .bytes m.head_hash, .int m.head_td, .int m.reorg_depth⟩) := by
  constructor
  · intro d n h t h1 h2 h3
    simp [Status.as_head_info, h1, h2, h3]
  · intro m
    rfl

/-- Witness for C5 at a concrete decoded Status message and a concrete
Announce message. -/
theorem as_head_info_fields_witness :
    Status.as_head_info
        [("headNum", .int 150), ("headHash", .bytes [1, 2]), ("headTd", .int 5000)] =
      some ⟨.int 150, .bytes [1, 2], .int 5000, .int 0⟩ ∧
    Announce.as_head_info ⟨[3], 9, 11, 4, []⟩ = ⟨.int 9, .bytes [3], .int 11, .int 4⟩ :=
  ⟨as_head_info_fields.1 _ _ _ _ (by decide) (by decide) (by decide),
   as_head_info_fields.2 ⟨[3], 9, 11, 4, []⟩⟩

/-! ### C4: canonical (sorted) Status encoding -/

theorem char_eq_of_toNat_eq {c d : Char} (h : c.toNat = d.toNat) : c = d :=
  Char.ext (UInt32.ext h)

theorem charListLE_total : ∀ x y, charListLE x y = true ∨ charListLE y x = true
  | [], _ => Or.inl rfl
  | _ :: _, [] => Or.inr rfl
  | a :: as, b :: bs => by
      rcases Nat.lt_trichotomy a.toNat b.toNat with h | h | h
      · left
        simp [charListLE, h]
      · simpa [charListLE, h] using charListLE_total as bs
      · right
        simp [charListLE, h]

theorem charListLE_trans : ∀ x y z, charListLE x y = true → charListLE y z = true →
    charListLE x z = true
  | [], _, _, _, _ => rfl
  | _ :: _, [], _, h1, _ => by simp [charListLE] at h1
  | _ :: _, _ :: _, [], _, h2 => by simp [charListLE] at h2
  | a :: as, b :: bs, c :: cs, h1, h2 => by
      have hba : ¬ b.toNat < a.toNat := by
        intro hh
        simp [charListLE, Nat.lt_asymm hh, hh] at h1
      have hcb : ¬ c.toNat < b.toNat := by
        intro hh
        simp [charListLE, Nat.lt_asymm hh, hh] at h2
      have hca : ¬ c.toNat < a.toNat := by omega
      by_cases hac : a.toNat < c.toNat
      · simp [charListLE, hac]
      · have hab : ¬ a.toNat < b.toNat := by omega
        have hbc : ¬ b.toNat < c.toNat := by omega
        simp only [charListLE, if_neg hab, if_neg hba] at h1
        simp only [charListLE, if_neg hbc, if_neg hcb] at h2
        simp only [charListLE, if_neg hac, if_neg hca]
        exact charListLE_trans as bs cs h1 h2

theorem charListLE_antisymm : ∀ x y, charListLE x y = true → charListLE y x = true → x = y
  | [], [], _, _ => rfl
  | [], _ :: _, _, h2 => by simp [charListLE] at h2
  | _ :: _, [], h1, _ => by simp [charListLE] at h1
  | a :: as, b :: bs, h1, h2 => by
      have hba : ¬ b.toNat < a.toNat := by
        intro hh
        simp [charListLE, Nat.lt_asymm hh, hh] at h1
      have hab : ¬ a.toNat < b.toNat := by
        intro hh
        simp [charListLE, Nat.lt_asymm hh, hh] at h2
      have heq : a = b := char_eq_of_toNat_eq (by omega)
      subst heq
      simp only [charListLE, if_neg hab, if_neg hba] at h1 h2
      rw [charListLE_antisymm as bs h1 h2]

theorem keyStrict_antisymm (a b : String × StatusValue)
    (hab : keyStrict a b) (hba : keyStrict b a) : a = b := by
  rcases hab with ⟨hab, hne⟩ | rfl
  · rcases hba with ⟨hba, -⟩ | h
    · exact absurd (String.ext (charListLE_antisymm _ _ hab hba)) hne
    · exact h.symm
  · rfl

theorem insertionSort_eq_of_perm (d1 d2 : List (String × StatusValue))
    (hperm : d1.Perm d2) (hnodup : (d1.map Prod.fst).Nodup) :
    List.insertionSort keyLE d1 = List.insertionSort keyLE d2 := by
  haveI : IsTotal (String × StatusValue) keyLE := ⟨fun a b => charListLE_total _ _⟩
  haveI : IsTrans (String × StatusValue) keyLE := ⟨fun a b c => charListLE_trans _ _ _⟩
  haveI : IsAntisymm (String × StatusValue) keyStrict := ⟨keyStrict_antisymm⟩
  have hp : (List.insertionSort keyLE d1).Perm (List.insertionSort keyLE d2) :=
    (List.perm_insertionSort keyLE d1).trans
      (hperm.trans (List.perm_insertionSort keyLE d2).symm)
  have hnodup2 : (d2.map Prod.fst).Nodup := ((hperm.map Prod.fst).nodup_iff).mp hnodup
  have sortedStrict : ∀ d : List (String × StatusValue), (d.map Prod.fst).Nodup →
      List.Sorted keyStrict (List.insertionSort keyLE d) := by
    intro d hn
    have hns : ((List.insertionSort keyLE d).map Prod.fst).Nodup :=
      (((List.perm_insertionSort keyLE d).map Prod.fst).nodup_iff).mpr hn
    have hne : (List.insertionSort keyLE d).Pairwise (fun a b => a.1 ≠ b.1) :=
      List.pairwise_map.mp hns
    have hle : (List.insertionSort keyLE d).Pairwise keyLE :=
      List.sorted_insertionSort keyLE d
    exact (hle.and hne).imp (fun h => Or.inl h)
  exact List.eq_of_perm_of_sorted hp (sortedStrict d1 hnodup) (sortedStrict d2 hnodup2)

/-- C4: Negotiation encoding is canonical — two dicts equal as mappings
(same key/value pairs, possibly in different insertion orders, keys distinct
as in any dict) encode to the same item tree, hence to identical bytes under
any deterministic external byte codec, because the pairs are sorted by key
before the outer list is built. -/
theorem status_encode_canonical (d1 d2 : List (String × StatusValue))
    (hperm : d1.Perm d2) (hnodup : (d1.map Prod.fst).Nodup) :
    Status.encode_payload d1 = Status.encode_payload d2 ∧
    ∀ byteCodec : RLPItem → List Nat,
      Except.map byteCodec (Status.encode_payload d1) =
        Except.map byteCodec (Status.encode_payload d2) := by
  have hs := insertionSort_eq_of_perm d1 d2 hperm hnodup
  constructor
  · simp [Status.encode_payload, hs]
  · intro bc
    simp [Status.encode_payload, hs]

/-- Witness for C4: the same two-key mapping supplied in both insertion
orders encodes identically. -/
theorem status_encode_canonical_witness :
    Status.encode_payload [("networkId", .int 1), ("headNum", .int 2)] =
      Status.encode_payload [("headNum", .int 2), ("networkId", .int 1)] :=
  (status_encode_canonical _ _ (List.Perm.swap _ _ _) (by decide)).1

/-! ### Dict and decode lemmas -/

theorem alistFind_dinsert (d : List (String × StatusValue)) (k' : String) (v : StatusValue)
    (k : String) :
    alistFind (dinsert d k' v) k = if k' = k then some v else alistFind d k := by
  induction d with
  | nil =>
      simp only [dinsert, alistFind]
  | cons p rest ih =>
      obtain ⟨a, b⟩ := p
      by_cases hak : a = k'
      · subst hak
        simp only [dinsert, if_pos rfl, alistFind]
        split_ifs <;> rfl
      · simp only [dinsert, if_neg hak, alistFind]
        rw [ih]
        split_ifs with h1 h2 <;> first
          | rfl
          | (exact absurd (h1.trans h2.symm) hak)

theorem alistFind_foldl_dinsert :
    ∀ (es d : List (String × StatusValue)) (k : String),
      alistFind (es.foldl (fun acc kv => dinsert acc kv.1 kv.2) d) k =
        match lastVal es k with
        | some w => some w
        | none => alistFind d k := by
  intro es
  induction es with
  | nil => intro d k; rfl
  | cons p rest ih =>
      intro d k
      obtain ⟨k0, v0⟩ := p
      rw [List.foldl_cons, ih]
      cases hl : lastVal rest k with
      | some w => simp [lastVal, hl]
      | none =>
          simp only [lastVal, hl]
          rw [alistFind_dinsert]
          by_cases h : k0 = k <;> simp [h]

theorem alistFind_toDict (es : List (String × StatusValue)) (k : String) :
    alistFind (toDict es) k = lastVal es k := by
  rw [toDict, alistFind_foldl_dinsert]
  cases hl : lastVal es k <;> simp [alistFind]

theorem lastVal_mem :
    ∀ (es : List (String × StatusValue)) (k : String) (v : StatusValue),
      lastVal es k = some v → (k, v) ∈ es := by
  intro es
  induction es with
  | nil => intro k v h; simp [lastVal] at h
  | cons p rest ih =>
      intro k v h
      obtain ⟨k0, v0⟩ := p
      cases hl : lastVal rest k with
      | some w =>
          simp only [lastVal, hl] at h
          injection h with h
          subst h
          exact List.mem_cons_of_mem _ (ih k w hl)
      | none =>
          simp only [lastVal, hl] at h
          split at h
          · rename_i hk
            injection h with h
            subst hk h
            exact List.mem_cons_self _ _
          · exact absurd h (by simp)

theorem lastRaw_mem :
    ∀ (payload : List (List Nat × RLPItem)) (k : String) (w : RLPItem),
      lastRaw payload k = some w → ∃ kb, (kb, w) ∈ payload ∧ asciiDecode kb = some k := by
  intro payload
  induction payload with
  | nil => intro k w h; simp [lastRaw] at h
  | cons p rest ih =>
      intro k w h
      obtain ⟨kb0, v0⟩ := p
      cases hl : lastRaw rest k with
      | some w' =>
          simp only [lastRaw, hl] at h
          injection h with h
          subst h
          obtain ⟨kb, hmem, hascii⟩ := ih k w' hl
          exact ⟨kb, List.mem_cons_of_mem _ hmem, hascii⟩
      | none =>
          simp only [lastRaw, hl] at h
          split at h
          · rename_i hk
            injection h with h
            subst h
            exact ⟨kb0, List.mem_cons_self _ _, hk⟩
          · exact absurd h (by simp)

theorem decodeStatusEntries_sound :
    ∀ payload : List (List Nat × RLPItem),
      (∀ p ∈ payload, (asciiDecode p.1).isSome) →
      (∀ p ∈ payload, ∀ k os, asciiDecode p.1 = some k → lookupItemSedes k = some os →
        (decodeKnownValue os p.2).isSome) →
      ∃ es, decodeStatusEntries payload = .ok es ∧
        (∀ q ∈ es, (lookupItemSedes q.1).isSome) ∧
        (∀ k os, lookupItemSedes k = some os →
          lastVal es k = (lastRaw payload k).bind (decodeKnownValue os)) := by
  intro payload
  induction payload with
  | nil =>
      intro _ _
      exact ⟨[], rfl, by simp, by intro k os _; simp [lastVal, lastRaw]⟩
  | cons p rest ih =>
      intro h1 h2
      obtain ⟨kb, v⟩ := p
      obtain ⟨k0, hk0⟩ : ∃ k0, asciiDecode kb = some k0 :=
        Option.isSome_iff_exists.mp (h1 _ (List.mem_cons_self _ _))
      have h1r : ∀ p ∈ rest, (asciiDecode p.1).isSome :=
        fun p hp => h1 p (List.mem_cons_of_mem _ hp)
      have h2r : ∀ p ∈ rest, ∀ k os, asciiDecode p.1 = some k → lookupItemSedes k = some os →
          (decodeKnownValue os p.2).isSome :=
        fun p hp => h2 p (List.mem_cons_of_mem _ hp)
      obtain ⟨es, hes, hkn, hlast⟩ := ih h1r h2r
      cases hlk0 : lookupItemSedes k0 with
      | none =>
          refine ⟨es, ?_, hkn, ?_⟩
          · simp only [decodeStatusEntries, hk0, hlk0]
            exact hes
          · intro k os hlk
            have hkk0 : k0 ≠ k := by
              intro h
              rw [h, hlk] at hlk0
              exact Option.noConfusion hlk0
            have hne : ¬ (asciiDecode kb = some k) := by
              rw [hk0]
              intro hh
              injection hh with hh
              exact hkk0 hh
            rw [hlast k os hlk]
            cases hr : lastRaw rest k with
            | some w => simp [lastRaw, hr]
            | none => simp [lastRaw, hr, hne]
      | some os0 =>
          have hdv : (decodeKnownValue os0 v).isSome :=
            h2 _ (List.mem_cons_self _ _) k0 os0 hk0 hlk0
          obtain ⟨sv, hsv⟩ := Option.isSome_iff_exists.mp hdv
          refine ⟨(k0, sv) :: es, ?_, ?_, ?_⟩
          · simp only [decodeStatusEntries, hk0, hlk0, hsv, hes]
          · intro q hq
            rcases List.mem_cons.mp hq with rfl | hq
            · simp [hlk0]
            · exact hkn q hq
          · intro k os hlk
            by_cases hk : k0 = k
            · subst hk
              have hos : os = os0 := by
                rw [hlk] at hlk0
                injection hlk0
              subst hos
              cases hr : lastRaw rest k0 with
              | some w =>
                  obtain ⟨kb', hmem', hascii'⟩ := lastRaw_mem rest k0 w hr
                  have hw : (decodeKnownValue os v).isSome := hdv
                  have hws : (decodeKnownValue os w).isSome :=
                    h2 _ (List.mem_cons_of_mem _ hmem') k0 os hascii' hlk
                  obtain ⟨u, hu⟩ := Option.isSome_iff_exists.mp hws
                  have hlv : lastVal es k0 = some u := by
                    rw [hlast k0 os hlk, hr]
                    exact hu
                  simp [lastVal, hlv, lastRaw, hr, hu]
              | none =>
                  have hlv : lastVal es k0 = none := by
                    rw [hlast k0 os hlk, hr]
                    rfl
                  simp [lastVal, hlv, lastRaw, hr, hk0, hsv]
            · have hne : ¬ (asciiDecode kb = some k) := by
                rw [hk0]
                intro hh
                injection hh with hh
                exact hk hh
              have hstep : lastVal ((k0, sv) :: es) k = lastVal es k := by
                cases hl : lastVal es k <;> simp [lastVal, hl, hk]
              rw [hstep, hlast k os hlk]
              cases hr : lastRaw rest k <;> simp [lastRaw, hr, hne]

theorem decodeStatusEntries_err_of_mem :
    ∀ (payload : List (List Nat × RLPItem)) (kb : List Nat) (v : RLPItem),
      (kb, v) ∈ payload → asciiDecode kb = none →
      ∃ e, decodeStatusEntries payload = .error e := by
  intro payload
  induction payload with
  | nil => intro kb v h _; simp at h
  | cons p rest ih =>
      intro kb v hmem hascii
      obtain ⟨kb0, v0⟩ := p
      rcases List.mem_cons.mp hmem with heq | hmem'
      · cases heq
        exact ⟨.nonAscii kb, by simp [decodeStatusEntries, hascii]⟩
      · cases hk : asciiDecode kb0 with
        | none => exact ⟨.nonAscii kb0, by simp [decodeStatusEntries, hk]⟩
        | some k0 =>
            cases hlk : lookupItemSedes k0 with
            | none =>
                obtain ⟨e, he⟩ := ih kb v hmem' hascii
                exact ⟨e, by simp [decodeStatusEntries, hk, hlk, he]⟩
            | some os =>
                cases hdv : decodeKnownValue os v0 with
                | none => exact ⟨.fieldDecode k0, by simp [decodeStatusEntries, hk, hlk, hdv]⟩
                | some sv =>
                    obtain ⟨e, he⟩ := ih kb v hmem' hascii
                    exact ⟨e, by simp [decodeStatusEntries, hk, hlk, hdv, he]⟩

/-! ### C8: non-ASCII key bytes fail the decode -/

/-- C8: Status decoding requires every key's bytes — including unknown keys
that would otherwise be skipped — to be ASCII-decodable: a payload containing
a pair whose key bytes are not ASCII fails with an error, and when such a
pair is first the error is precisely the ASCII failure on those bytes,
raised before the known-key check is consulted. -/
theorem status_decode_nonascii_key_fails
    (payload : List (List Nat × RLPItem)) (kb : List Nat) (v : RLPItem)
    (hmem : (kb, v) ∈ payload) (hascii : asciiDecode kb = none) :
    (∃ e, Status.decode_payload payload = .error e) ∧
    (∀ rest, Status.decode_payload ((kb, v) :: rest) = .error (.nonAscii kb)) := by
  constructor
  · obtain ⟨e, he⟩ := decodeStatusEntries_err_of_mem payload kb v hmem hascii
    exact ⟨e, by simp [Status.decode_payload, he]⟩
  · intro rest
    simp [Status.decode_payload, decodeStatusEntries, hascii]

/-- Witness for C8: the single-pair payload whose key is the non-ASCII byte
200 fails with the ASCII error. -/
theorem status_decode_nonascii_key_fails_witness :
    (∃ e, Status.decode_payload [([200], .bytes [])] = .error e) ∧
    Status.decode_payload [([200], .bytes [])] = .error (.nonAscii [200]) :=
  ⟨(status_decode_nonascii_key_fails [([200], .bytes [])] [200] (.bytes [])
      (List.mem_cons_self _ _) (by decide)).1,
   (status_decode_nonascii_key_fails [([200], .bytes [])] [200] (.bytes [])
      (List.mem_cons_self _ _) (by decide)).2 []⟩

/-! ### C3: forward compatibility of the decode -/

/-- Counterexample to C3 as stated: decoding does not succeed for every
well-formed outer list containing unknown keys.  A payload whose sole pair
has the non-ASCII (hence unknown) key byte 200 fails, and a payload with the
unknown key `unknownKey` alongside a known key whose value cannot be decoded
also fails. -/
theorem status_decode_forward_compat_counterexample :
    Status.decode_payload [([200], RLPItem.bytes [])] = .error (.nonAscii [200]) ∧
    lookupItemSedes "unknownKey" = none ∧
    Status.decode_payload
        [(str2bytes "unknownKey", RLPItem.bytes []),
         (str2bytes "networkId", RLPItem.list [])] =
      .error (.fieldDecode "networkId") :=
  ⟨rfl, rfl, rfl⟩

/-- C3 (amended): for every well-formed outer list whose keys are all
ASCII-decodable and whose known keys' values all decode under their declared
sedes, decoding succeeds — unknown keys never cause a failure — the result
omits the unknown keys, and every known key decodes to the value its sedes
gives for its (last) occurrence. -/
theorem status_decode_forward_compat_amended
    (payload : List (List Nat × RLPItem))
    (h1 : ∀ p ∈ payload, (asciiDecode p.1).isSome)
    (h2 : ∀ p ∈ payload, ∀ k os, asciiDecode p.1 = some k → lookupItemSedes k = some os →
      (decodeKnownValue os p.2).isSome) :
    ∃ d, Status.decode_payload payload = .ok d ∧
      (∀ k v, alistFind d k = some v → (lookupItemSedes k).isSome) ∧
      (∀ k os, lookupItemSedes k = some os →
        alistFind d k = (lastRaw payload k).bind (decodeKnownValue os)) := by
  obtain ⟨es, hes, hkn, hlast⟩ := decodeStatusEntries_sound payload h1 h2
  refine ⟨toDict es, by simp [Status.decode_payload, hes], ?_, ?_⟩
  · intro k v hfind
    rw [alistFind_toDict] at hfind
    exact hkn _ (lastVal_mem es k v hfind)
  · intro k os h
    rw [alistFind_toDict]
    exact hlast k os h

/-- Witness for the amended C3 at a payload holding the unknown key `zzz`
and the known key `networkId`. -/
theorem status_decode_forward_compat_amended_witness :
    ∃ d, Status.decode_payload
        [(str2bytes "zzz", .bytes [1]), (str2bytes "networkId", .bytes [7])] = .ok d ∧
      (∀ k v, alistFind d k = some v → (lookupItemSedes k).isSome) ∧
      (∀ k os, lookupItemSedes k = some os →
        alistFind d k =
          (lastRaw [(str2bytes "zzz", .bytes [1]), (str2bytes "networkId", .bytes [7])] k).bind
            (decodeKnownValue os)) := by
  refine status_decode_forward_compat_amended _ (by decide) ?_
  intro p hp k os hk hos
  rcases List.mem_cons.mp hp with rfl | hp'
  · have h0 : asciiDecode (str2bytes "zzz") = some "zzz" := by decide
    rw [h0] at hk
    injection hk with hh
    subst hh
    rw [show lookupItemSedes "zzz" = none from by decide] at hos
    exact Option.noConfusion hos
  · rcases List.mem_cons.mp hp' with rfl | hp''
    · have h0 : asciiDecode (str2bytes "networkId") = some "networkId" := by decide
      rw [h0] at hk
      injection hk with hh
      subst hh
      rw [show lookupItemSedes "networkId" = some (some .big_endian_int) from by decide] at hos
      injection hos with hos
      subst hos
      decide
    · exact absurd hp'' (by simp)

/-! ### C10: duplicate keys, last occurrence wins -/

/-- Counterexample to C10 as stated: a payload in which the known key
`networkId` occurs more than once need not decode successfully — here the
first occurrence's value has a leading zero byte, which its sedes rejects. -/
theorem status_decode_duplicate_counterexample :
    Status.decode_payload
        [(str2bytes "networkId", RLPItem.bytes [0, 1]),
         (str2bytes "networkId", RLPItem.bytes [5])] =
      .error (.fieldDecode "networkId") ∧
    lookupItemSedes "networkId" = some (some .big_endian_int) :=
  ⟨rfl, rfl⟩

/-- C10 (amended): when decoding succeeds (every key ASCII-decodable, every
known key's value decodable), a known key occurring one or more times in the
wire list — in particular more than once — maps in the resulting dict to the
deserialized value of its last occurrence: later pairs overwrite earlier
ones in the accumulated dict. -/
theorem status_decode_duplicate_last_wins
    (payload : List (List Nat × RLPItem))
    (h1 : ∀ p ∈ payload, (asciiDecode p.1).isSome)
    (h2 : ∀ p ∈ payload, ∀ k os, asciiDecode p.1 = some k → lookupItemSedes k = some os →
      (decodeKnownValue os p.2).isSome)
    (k : String) (os : Option ItemSedes) (w : RLPItem)
    (hk : lookupItemSedes k = some os) (hw : lastRaw payload k = some w) :
    ∃ d, Status.decode_payload payload = .ok d ∧ alistFind d k = decodeKnownValue os w := by
  obtain ⟨es, hes, -, hlast⟩ := decodeStatusEntries_sound payload h1 h2
  refine ⟨toDict es, by simp [Status.decode_payload, hes], ?_⟩
  rw [alistFind_toDict, hlast k os hk, hw]
  rfl

/-- Witness for the amended C10: `networkId` occurs twice; the decoded dict
carries the second occurrence's value. -/
theorem status_decode_duplicate_last_wins_witness :
    ∃ d, Status.decode_payload
        [(str2bytes "networkId", .bytes [5]), (str2bytes "networkId", .bytes [9])] = .ok d ∧
      alistFind d "networkId" = decodeKnownValue (some .big_endian_int) (.bytes [9]) := by
  refine status_decode_duplicate_last_wins _ (by decide) ?_ "networkId"
    (some .big_endian_int) (.bytes [9]) (by decide) (by decide)
  intro p hp k os hk hos
  have h0 : asciiDecode (str2bytes "networkId") = some "networkId" := by decide
  rcases List.mem_cons.mp hp with rfl | hp'
  · rw [h0] at hk
    injection hk with hh
    subst hh
    rw [show lookupItemSedes "networkId" = some (some .big_endian_int) from by decide] at hos
    injection hos with hos
    subst hos
    decide
  · rcases List.mem_cons.mp hp' with rfl | hp''
    · rw [h0] at hk
      injection hk with hh
      subst hh
      rw [show lookupItemSedes "networkId" = some (some .big_endian_int) from by decide] at hos
      injection hos with hos
      subst hos
      decide
    · exact absurd hp'' (by simp)

/-! ### Encode failure lemmas (C7, C9) -/

theorem mapEncodeEntries_err :
    ∀ l : List (String × StatusValue),
      (∃ p ∈ l, ∃ e0, encodeEntry p = .error e0) →
      ∃ e, mapEncodeEntries l = .error e := by
  intro l
  induction l with
  | nil => intro h; simp at h
  | cons p rest ih =>
      intro h
      cases he : encodeEntry p with
      | error e => exact ⟨e, by simp [mapEncodeEntries, he]⟩
      | ok i =>
          obtain ⟨q, hmem, e0, he0⟩ := h
          rcases List.mem_cons.mp hmem with rfl | hmem'
          · rw [he] at he0
            exact absurd he0 (by simp)
          · obtain ⟨e, herr⟩ := ih ⟨q, hmem', e0, he0⟩
            exact ⟨e, by simp [mapEncodeEntries, he, herr]⟩

theorem mapEncodeEntries_first_unknown :
    ∀ l : List (String × StatusValue),
      (∃ p ∈ l, lookupItemSedes p.1 = none) →
      (∀ p ∈ l, ∀ os, lookupItemSedes p.1 = some os →
        ∃ s, os = some s ∧ (serializeValue s p.2).isSome) →
      ∃ k', mapEncodeEntries l = .error (.unknownKey k') ∧ lookupItemSedes k' = none := by
  intro l
  induction l with
  | nil => intro h _; simp at h
  | cons p rest ih =>
      intro hunk hok
      cases hlk : lookupItemSedes p.1 with
      | none =>
          refine ⟨p.1, ?_, hlk⟩
          simp [mapEncodeEntries, encodeEntry, hlk]
      | some os =>
          obtain ⟨s, rfl, hser⟩ := hok p (List.mem_cons_self _ _) os hlk
          obtain ⟨item, hitem⟩ := Option.isSome_iff_exists.mp hser
          have hrest : ∃ q ∈ rest, lookupItemSedes q.1 = none := by
            obtain ⟨q, hmem, hq⟩ := hunk
            rcases List.mem_cons.mp hmem with rfl | hmem'
            · rw [hq] at hlk
              exact absurd hlk (by simp)
            · exact ⟨q, hmem', hq⟩
          obtain ⟨k', herr, hk'⟩ := ih hrest (fun q hq => hok q (List.mem_cons_of_mem _ hq))
          refine ⟨k', ?_, hk'⟩
          simp [mapEncodeEntries, encodeEntry, hlk, hitem, herr]

theorem sorted_mem_iff (data : List (String × StatusValue)) (p : String × StatusValue) :
    p ∈ List.insertionSort keyLE data ↔ p ∈ data :=
  (List.perm_insertionSort keyLE data).mem_iff

/-! ### C9: presence-only flag keys cannot be encoded -/

/-- C9: the presence-only keys (those whose `items_sedes` entry is `None`,
namely `serveHeaders` and `txRelay`) make `Status.encode_payload` fail for
every mapping containing them — there is no way to encode a presence flag —
even though the decode path accepts such a key and keeps its raw value. -/
theorem presence_flag_keys_unencodable
    (data : List (String × StatusValue)) (k : String) (v : StatusValue)
    (hmem : (k, v) ∈ data) (hflag : lookupItemSedes k = some none) :
    (∃ e, Status.encode_payload data = .error e) ∧
    (∀ r, decodeKnownValue none r = some (.raw r)) ∧
    (∀ r, Status.decode_payload [(str2bytes k, r)] = .ok [(k, .raw r)]) := by
  refine ⟨?_, fun r => rfl, ?_⟩
  · have hmem' : (k, v) ∈ List.insertionSort keyLE data := (sorted_mem_iff data _).mpr hmem
    obtain ⟨e, herr⟩ := mapEncodeEntries_err _
      ⟨(k, v), hmem', .noCodec k, by simp [encodeEntry, hflag]⟩
    exact ⟨e, by simp [Status.encode_payload, herr]⟩
  · intro r
    have hascii := knownKey_ascii k none hflag
    simp [Status.decode_payload, decodeStatusEntries, hascii, hflag, decodeKnownValue, toDict,
      dinsert]

/-- Witness for C9 at `serveHeaders`: encoding a mapping holding it fails;
decoding a payload holding it succeeds with the raw value kept. -/
theorem presence_flag_keys_unencodable_witness :
    (∃ e, Status.encode_payload [("serveHeaders", .int 0)] = .error e) ∧
    Status.decode_payload [(str2bytes "serveHeaders", .bytes [1])] =
      .ok [("serveHeaders", .raw (.bytes [1]))] :=
  ⟨(presence_flag_keys_unencodable [("serveHeaders", .int 0)] "serveHeaders" (.int 0)
      (List.mem_cons_self _ _) (by decide)).1,
   (presence_flag_keys_unencodable [("serveHeaders", .int 0)] "serveHeaders" (.int 0)
      (List.mem_cons_self _ _) (by decide)).2.2 (.bytes [1])⟩

/-! ### C7: encoding a mapping with an unknown key -/

/-- Counterexample to C7 as stated: a mapping containing the unknown key
`zzz` does not fail with the unknown-key error — the known key
`serveHeaders` sorts first and its missing sedes (`None.serialize`) raises
first, so the failure is the no-codec error, not UnknownKeyError. -/
theorem status_encode_unknown_key_counterexample :
    lookupItemSedes "zzz" = none ∧
    Status.encode_payload [("serveHeaders", .int 0), ("zzz", .int 1)] =
      .error (.noCodec "serveHeaders") := by
  exact ⟨rfl, by decide⟩

/-- C7 (amended): for every mapping containing a key absent from the
known-key table, encoding fails, and it fails before any bytes are handed to
the transport; the error is UnknownKeyError provided every known-key entry
of the mapping serializes (has a sedes that accepts its value) — otherwise
the first failing entry in sorted key order raises its own error instead. -/
theorem status_encode_unknown_key_amended
    (data : List (String × StatusValue)) (k : String) (v : StatusValue)
    (hmem : (k, v) ∈ data) (hunk : lookupItemSedes k = none) :
    (∃ e, Status.encode_payload data = .error e) ∧
    handedToTransport (Status.encode_payload data) = [] ∧
    ((∀ p ∈ data, ∀ os, lookupItemSedes p.1 = some os →
        ∃ s, os = some s ∧ (serializeValue s p.2).isSome) →
      ∃ k', Status.encode_payload data = .error (.unknownKey k') ∧
        lookupItemSedes k' = none) := by
  have herr : ∃ e, Status.encode_payload data = .error e := by
    have hmem' : (k, v) ∈ List.insertionSort keyLE data := (sorted_mem_iff data _).mpr hmem
    obtain ⟨e, he⟩ := mapEncodeEntries_err _
      ⟨(k, v), hmem', .unknownKey k, by simp [encodeEntry, hunk]⟩
    exact ⟨e, by simp [Status.encode_payload, he]⟩
  refine ⟨herr, ?_, ?_⟩
  · obtain ⟨e, he⟩ := herr
    rw [he]
    rfl
  · intro hok
    have hunk' : ∃ p ∈ List.insertionSort keyLE data, lookupItemSedes p.1 = none :=
      ⟨(k, v), (sorted_mem_iff data _).mpr hmem, hunk⟩
    have hok' : ∀ p ∈ List.insertionSort keyLE data, ∀ os, lookupItemSedes p.1 = some os →
        ∃ s, os = some s ∧ (serializeValue s p.2).isSome :=
      fun p hp => hok p ((sorted_mem_iff data _).mp hp)
    obtain ⟨k', he, hk'⟩ := mapEncodeEntries_first_unknown _ hunk' hok'
    exact ⟨k', by simp [Status.encode_payload, he], hk'⟩

/-- Witness for the amended C7: a mapping with the unknown key `zzz` and the
well-typed known key `networkId` fails with UnknownKeyError and hands
nothing to the transport. -/
theorem status_encode_unknown_key_amended_witness :
    handedToTransport
        (Status.encode_payload [("zzz", .int 1), ("networkId", .int 7)]) = [] ∧
    ∃ k', Status.encode_payload [("zzz", .int 1), ("networkId", .int 7)] =
        .error (.unknownKey k') ∧ lookupItemSedes k' = none := by
  have h := status_encode_unknown_key_amended [("zzz", .int 1), ("networkId", .int 7)]
    "zzz" (.int 1) (List.mem_cons_self _ _) (by decide)
  refine ⟨h.2.1, h.2.2 ?_⟩
  intro p hp os hos
  rcases List.mem_cons.mp hp with rfl | hp'
  · rw [show lookupItemSedes "zzz" = none from by decide] at hos
    exact absurd hos (by simp)
  · rcases List.mem_cons.mp hp' with rfl | hp''
    · rw [show lookupItemSedes "networkId" = some (some .big_endian_int) from by decide] at hos
      injection hos with hos
      subst hos
      exact ⟨.big_endian_int, rfl, by decide⟩
    · exact absurd hp'' (by simp)

/-! ### Round-trip lemmas (C6) -/

theorem decodeOuterPair_pairItem (p : List Nat × RLPItem) :
    decodeOuterPair (pairItem p) = some p := rfl

theorem phase1Items_map_pairItem (ps : List (List Nat × RLPItem)) :
    phase1Items (ps.map pairItem) = some ps :=
  optMap_map_roundtrip pairItem decodeOuterPair decodeOuterPair_pairItem ps

theorem Announce_roundtrip (m : AnnounceMsg) :
    Announce.deserialize (Announce.serialize m) = some m := by
  obtain ⟨hh, hn, ht, rd, ps⟩ := m
  simp [Announce.serialize, Announce.deserialize, deserializeInt_beBytes,
    phase1Items_map_pairItem]

theorem GetBlockHeadersQuery_roundtrip (q : GetBlockHeadersQuery) :
    GetBlockHeadersQuery.deserialize (GetBlockHeadersQuery.serialize q) = some q := by
  obtain ⟨b, mh, sk, rv⟩ := q
  simp [GetBlockHeadersQuery.serialize, GetBlockHeadersQuery.deserialize,
    deserializeInt_beBytes]

theorem GetBlockHeadersMsg_roundtrip (m : GetBlockHeadersMsg) :
    GetBlockHeadersMsg.deserialize (GetBlockHeadersMsg.serialize m) = some m := by
  obtain ⟨rid, q⟩ := m
  simp [GetBlockHeadersMsg.serialize, GetBlockHeadersMsg.deserialize,
    deserializeInt_beBytes, GetBlockHeadersQuery_roundtrip]

theorem BlockHeadersMsg_roundtrip (m : BlockHeadersMsg) :
    BlockHeadersMsg.deserialize (BlockHeadersMsg.serialize m) = some m := by
  obtain ⟨rid, bv, hs⟩ := m
  simp [BlockHeadersMsg.serialize, BlockHeadersMsg.deserialize, deserializeInt_beBytes]

theorem GetBlockBodiesMsg_roundtrip (m : GetBlockBodiesMsg) :
    GetBlockBodiesMsg.deserialize (GetBlockBodiesMsg.serialize m) = some m := by
  obtain ⟨rid, hashes⟩ := m
  simp [GetBlockBodiesMsg.serialize, GetBlockBodiesMsg.deserialize, deserializeInt_beBytes,
    optMap_map_roundtrip RLPItem.bytes deserializeBinary (fun _ => rfl)]

theorem LESBlockBody_roundtrip (b : LESBlockBody) :
    LESBlockBody.deserialize (LESBlockBody.serialize b) = some b := by
  obtain ⟨ts, us⟩ := b
  rfl

theorem BlockBodiesMsg_roundtrip (m : BlockBodiesMsg) :
    BlockBodiesMsg.deserialize (BlockBodiesMsg.serialize m) = some m := by
  obtain ⟨rid, bv, bodies⟩ := m
  simp [BlockBodiesMsg.serialize, BlockBodiesMsg.deserialize, deserializeInt_beBytes,
    optMap_map_roundtrip LESBlockBody.serialize LESBlockBody.deserialize LESBlockBody_roundtrip]

/-! ### C6: encode-then-decode is the identity -/

/-- C6: for every known Negotiation key with a declared sedes and every value
in that sedes' domain (the presence-only keys declare no value type), the
full pipeline — typed encode, external byte codec, phase-1 outer decode,
typed decode — returns the original value for that key; and for each
fixed-schema message (Announce, GetBlockHeaders, BlockHeaders,
GetBlockBodies, BlockBodies), deserializing its serialization is the
identity. -/
theorem encode_decode_round_trip :
    (∀ k s v, lookupItemSedes k = some (some s) → (serializeValue s v).isSome →
      ∃ wire pairs d, Status.encode_payload [(k, v)] = .ok wire ∧
        statusOuterDecode wire = some pairs ∧
        Status.decode_payload pairs = .ok d ∧
        alistFind d k = some v) ∧
    (∀ m : AnnounceMsg, Announce.deserialize (Announce.serialize m) = some m) ∧
    (∀ m : GetBlockHeadersMsg,
      GetBlockHeadersMsg.deserialize (GetBlockHeadersMsg.serialize m) = some m) ∧
    (∀ m : BlockHeadersMsg,
      BlockHeadersMsg.deserialize (BlockHeadersMsg.serialize m) = some m) ∧
    (∀ m : GetBlockBodiesMsg,
      GetBlockBodiesMsg.deserialize (GetBlockBodiesMsg.serialize m) = some m) ∧
    (∀ m : BlockBodiesMsg,
      BlockBodiesMsg.deserialize (BlockBodiesMsg.serialize m) = some m) := by
  refine ⟨?_, Announce_roundtrip, GetBlockHeadersMsg_roundtrip, BlockHeadersMsg_roundtrip,
    GetBlockBodiesMsg_roundtrip, BlockBodiesMsg_roundtrip⟩
  intro k s v hlk hser
  obtain ⟨item, hitem⟩ := Option.isSome_iff_exists.mp hser
  have hee : encodeEntry (k, v) = .ok (.list [.bytes (str2bytes k), item]) := by
    simp [encodeEntry, hlk, hitem]
  have henc : Status.encode_payload [(k, v)] =
      .ok (.list [.list [.bytes (str2bytes k), item]]) := by
    have hsort : List.insertionSort keyLE [(k, v)] = [(k, v)] := rfl
    simp [Status.encode_payload, hsort, mapEncodeEntries, hee]
  refine ⟨_, [(str2bytes k, item)], [(k, v)], henc, ?_, ?_, ?_⟩
  · simp [statusOuterDecode, phase1Items, optMap, decodeOuterPair]
  · have hascii := knownKey_ascii k (some s) hlk
    have hdv : decodeKnownValue (some s) item = some v := by
      simpa [decodeKnownValue] using deserializeValue_serializeValue s v item hitem
    simp [Status.decode_payload, decodeStatusEntries, hascii, hlk, hdv, toDict, dinsert]
  · simp [alistFind]

/-- Witness for C6: the known key `headHash` with a concrete byte-string
value round-trips through the full pipeline, and a concrete Announce message
round-trips. -/
theorem encode_decode_round_trip_witness :
    (∃ wire pairs d, Status.encode_payload [("headHash", .bytes [1, 2])] = .ok wire ∧
      statusOuterDecode wire = some pairs ∧
      Status.decode_payload pairs = .ok d ∧
      alistFind d "headHash" = some (.bytes [1, 2])) ∧
    Announce.deserialize (Announce.serialize ⟨[1], 2, 3, 4, [([5], .bytes [6])]⟩) =
      some ⟨[1], 2, 3, 4, [([5], .bytes [6])]⟩ :=
  ⟨encode_decode_round_trip.1 "headHash" .binary (.bytes [1, 2]) (by decide) (by decide),
   encode_decode_round_trip.2.1 ⟨[1], 2, 3, 4, [([5], .bytes [6])]⟩⟩
